import Mathlib

/-!
Verification of the chainmaker LWS (Log Write System) storage engine.

This file shallowly embeds the record framing, segment scanning,
reader/writer state machines, codec facade, purge worker and allocator of
the Go sources, and proves or refutes the frozen specification claims
about them.  Machine integers are modelled as `Nat` (with explicit
`% 2 ^ 32` / two-complement conversions where overflow matters), byte
buffers as `List Nat`, and fallible operations as `Except`/`Option`.
-/

namespace LWS
/-- Error values surfaced by the embedded operations, mirroring the error
variables of the Go sources (`ErrSegmentIndex`, `ErrCoderNotExist`,
`allocate.End`, io.EOF, `ErrPurgeWorkExisted`, ...). -/
inductive Err where
  | segmentIndex
  | coderNotExist
  | eof
  | invalidArg
  | allocEnd
  | negativeOffset
  | purgeWorkExisted
  | nilEntry
  | encodeFail
  | decodeFail
  deriving DecidableEq

/-- Frame layout constants from segment.go: a frame is
`len(4) | crc32(4) | type(1) | payload`. -/
def lenSize : Nat := 4

/-- Size of the crc32 field of a frame. -/
def crc32Size : Nat := 4

/-- Size of the type byte of a frame. -/
def typeSize : Nat := 1

/-- Embeds `serializateUint32` (logfile): big-endian serialization of a
`uint32`; values `≥ 2^32` are truncated exactly as the Go `uint32`
conversion does. -/
def serializateUint32 (v : Nat) : List Nat :=
  [v / 2 ^ 24 % 256, v / 2 ^ 16 % 256, v / 2 ^ 8 % 256, v % 256]

/-- Embeds `deserializeUint32` (logfile): big-endian read of the first four
bytes.  The Go original panics on a list shorter than four bytes; every
call site in this file guards the length first. -/
def deserializeUint32 (b : List Nat) : Nat :=
  b.getD 0 0 % 256 * 2 ^ 24 + b.getD 1 0 % 256 * 2 ^ 16 +
    b.getD 2 0 % 256 * 2 ^ 8 + b.getD 3 0 % 256

/-- CRC-32 polynomial in reversed bit order, the table generator used by
`crc32.MakeTable` for both polynomials that appear in the sources; the
current segment.go revision fixes `checkSumPoly = crc32.IEEE`. -/
def crcPoly : Nat := 0xEDB88320

/-- One bit step of the reflected CRC-32 computation. -/
def crcBit (c : Nat) : Nat :=
  if c % 2 = 1 then c / 2 ^^^ crcPoly else c / 2

/-- One byte step: xor the byte into the register, then eight bit steps. -/
def crcByte (c b : Nat) : Nat :=
  crcBit (crcBit (crcBit (crcBit (crcBit (crcBit (crcBit (crcBit (c ^^^ b % 256))))))))

/-- Embeds `crc32er.Checksum`: the standard CRC-32 of a byte sequence
(initial register `0xFFFFFFFF`, final complement). -/
def Checksum (data : List Nat) : Nat :=
  data.foldl crcByte 0xFFFFFFFF ^^^ 0xFFFFFFFF

/-- Embeds `LogEntry` (segment.go): `Len` is the length field (crc32 +
type + payload), `Typ` is the type byte (the Go `int8` tag is stored and
read back through the bijective `int8`/`byte` reinterpretation, so it is
modelled by its byte value `0..255`), `Data` is the payload. -/
structure LogEntry where
  Len : Nat
  Crc32 : Nat
  Typ : Nat
  Data : List Nat
  deriving DecidableEq

/-- Embeds `crc32Check` (SegmentProcessor): the stored checksum matches the
checksum of the payload. -/
def crc32Check (crc32 : Nat) (data : List Nat) : Bool :=
  Checksum data == crc32

/-- Embeds `ZeroMmap.readAt`/`readCheckArgs` (fbuffer) over a file modelled
as its full byte content: negative offsets cannot arise for `Nat`
offsets; an offset at or past the file size is EOF; a non-positive count
is an argument error; otherwise the read is clipped to the bytes
remaining in the file.  The remap loop against the page-aligned allocator
always lands in this window, so it is transparent here. -/
def zmReadAt (file : List Nat) (offset n : Nat) : Except Err (List Nat) :=
  if file.length ≤ offset then .error .eof
  else if n = 0 then .error .invalidArg
  else .ok ((file.drop offset).take n)

/-- Outcome of `logfile.readWithBuffer`: a parsed entry, a `nil` entry with
an error (mapped to `fail`, which stops a scan), or a Go runtime panic
(`binary.BigEndian.Uint32` or the index/slice expressions on a buffer
shorter than the five header bytes). -/
inductive ReadOutcome where
  | ok (e : LogEntry)
  | fail
  | panic
  deriving DecidableEq

/-- Embeds `logfile.readWithBuffer` (the `ReadLog` path used for mmap and
buffered files): read the four length bytes, then `len` bytes of
crc32 + type + payload; CRC is not verified here. -/
def readLog (file : List Nat) (pos : Nat) : ReadOutcome :=
  match zmReadAt file pos lenSize with
  | .error _ => .fail
  | .ok lbz =>
    if lbz.length < 4 then .panic
    else
      let l := deserializeUint32 lbz
      match zmReadAt file (pos + lenSize) l with
      | .error _ => .fail
      | .ok data =>
        if data.length < 5 then .panic
        else .ok { Len := l, Crc32 := deserializeUint32 data,
                   Typ := data.getD crc32Size 0,
                   Data := data.drop (crc32Size + typeSize) }

/-- The bytes of one on-disk frame as laid out by
`logfile.writeWithBuffer`/`writeNoBuffer`: big-endian length
(`|payload| + 5`), big-endian crc32 of the payload as passed in by
`SegmentProcessor.writeLog` (`crc32er.Checksum(data)`), the type byte,
then the payload. -/
def frameBytes (t : Nat) (data : List Nat) : List Nat :=
  serializateUint32 (data.length + crc32Size + typeSize) ++
    serializateUint32 (Checksum data) ++ [t] ++ data

/-- Embeds the file extension performed by `ZeroMmap.nextAt`: when the
requested window ends past the current size, the file is truncated up
(zero-filled by the OS). -/
def extendTo (file : List Nat) (n : Nat) : List Nat :=
  if file.length < n then file ++ List.replicate (n - file.length) 0 else file

/-- Embeds the effect of `ZeroMmap.nextAt` followed by filling the returned
slice (`logfile.writeWithBuffer`): the window `[off, off + |bs|)` of the
(possibly extended) file is replaced by `bs`. -/
def storeAt (file : List Nat) (off : Nat) (bs : List Nat) : List Nat :=
  (extendTo file (off + bs.length)).take off ++ bs ++
    (extendTo file (off + bs.length)).drop (off + bs.length)

/-- Embeds `logfile.writeWithBuffer` as a whole-file transformation: the
frame for `(t, data)` is written at the logical offset. -/
def writeLogAt (file : List Nat) (off : Nat) (t : Nat) (data : List Nat) : List Nat :=
  storeAt file off (frameBytes t data)

/-- Result of the scan loop `SegmentProcessor.traverseLogEntries` as used by
`SegmentWriter.readAndCheck` and `SegmentReader.loadEntries`: the number
of valid entries, their byte positions, the position of the first
missing/zero-length/CRC-failing frame (where the writer seeks and from
which appends resume), and whether the Go code would have panicked. -/
structure ScanResult where
  count : Nat
  positions : List Nat
  cursor : Nat
  panicked : Bool
  deriving DecidableEq

/-- Embeds the loop of `SegmentProcessor.traverseLogEntries` together with
the validity callback shared by `readAndCheck` and `loadEntries`
(`ue.LogEntry == nil || ue.Len == 0 || !crc32Check(ue.Crc32, ue.Data)`
stops the scan): starting at `pos`, parse frames, count and record valid
ones, and stop at the first invalid one. -/
def scanFrom (file : List Nat) (pos : Nat) : ScanResult :=
  match h : readLog file pos with
  | .panic => ⟨0, [], pos, true⟩
  | .fail => ⟨0, [], pos, false⟩
  | .ok e =>
    if e.Len = 0 ∨ ¬ crc32Check e.Crc32 e.Data then ⟨0, [], pos, false⟩
    else
      let r := scanFrom file (pos + e.Len + lenSize)
      ⟨r.count + 1, pos :: r.positions, r.cursor, r.panicked⟩
termination_by file.length + 5 - pos
decreasing_by
  have h1 : pos < file.length := by
    unfold readLog zmReadAt at h
    by_cases hp : file.length ≤ pos
    · simp [hp] at h
    · omega
  have h2 : 1 ≤ e.Len := by
    unfold readLog at h
    rcases hz : zmReadAt file pos lenSize with e1 | lbz
    · simp [hz] at h
    · rw [hz] at h
      simp only [] at h
      by_cases hb : lbz.length < 4
      · simp [hb] at h
      · simp only [hb, if_false] at h
        rcases hz2 : zmReadAt file (pos + lenSize) (deserializeUint32 lbz) with e2 | data
        · simp [hz2] at h
        · rw [hz2] at h
          by_cases hd : data.length < 5
          · simp [hd] at h
          · simp only [hd, if_false, ReadOutcome.ok.injEq] at h
            have hl : deserializeUint32 lbz ≠ 0 := by
              intro h0
              rw [h0] at hz2
              unfold zmReadAt at hz2
              by_cases h5 : file.length ≤ pos + lenSize <;> simp [h5] at hz2
            subst h
            simpa using Nat.one_le_iff_ne_zero.mpr hl
  simp only [lenSize]
  omega

/-- Decision of the scan-stopping condition of `readAndCheck`/`loadEntries`
at one position: the frame there is missing (read error), zero-length or
CRC-failing.  A `panic` outcome does not stop the scan, it aborts the
process. -/
def stopsHere (file : List Nat) (pos : Nat) : Bool :=
  match readLog file pos with
  | .fail => true
  | .panic => false
  | .ok e => e.Len == 0 || ! crc32Check e.Crc32 e.Data

/-- Byte image of a list of logical records `(type byte, payload)`, each
framed by `logfile.writeWithBuffer` at consecutive offsets, starting at
offset 0 of the segment file. -/
def concatFrames : List (Nat × List Nat) → List Nat
  | [] => []
  | (t, d) :: es => frameBytes t d ++ concatFrames es

/-- Byte positions of the frames of `concatFrames`, starting at `off`;
these are the values stored in the reader position table `pos`. -/
def framePositions (off : Nat) : List (Nat × List Nat) → List Nat
  | [] => []
  | (_, d) :: es => off :: framePositions (off + d.length + 9) es

/-- The `LogEntry` that `readLog` recovers from the frame of a record. -/
def entryOf (p : Nat × List Nat) : LogEntry :=
  ⟨p.2.length + crc32Size + typeSize, Checksum p.2, p.1, p.2⟩

/-- A record list is well formed when each length field fits in a
`uint32`, so framing does not truncate it. -/
def framesWF (es : List (Nat × List Nat)) : Prop :=
  ∀ p ∈ es, p.2.length + 5 < 2 ^ 32

instance (es : List (Nat × List Nat)) : Decidable (framesWF es) :=
  inferInstanceAs (Decidable (∀ p ∈ es, p.2.length + 5 < 2 ^ 32))

/-- Embeds the pre-allocation step of `newLogFile`: when the configured
segment size exceeds the current file size, the file is truncated up
(zero-filled by the OS). -/
def openWriterFile (disk : List Nat) (segmentSize : Nat) : List Nat :=
  if disk.length < segmentSize then
    disk ++ List.replicate (segmentSize - disk.length) 0 else disk

/-- State of a `SegmentWriter` directly after `NewSegmentWriter`:
`cursor` is the logical seek offset of the log file after
`readAndCheck` seeks to the first invalid frame, `count` is the valid
entry count, and `panicked` records whether the Go scan would have
crashed. -/
structure SegmentWriterM where
  file : List Nat
  cursor : Nat
  count : Nat
  panicked : Bool
  deriving DecidableEq

/-- Embeds `NewSegmentWriter` followed by `readAndCheck`
(`SegmentWriter`, part_020): open with pre-allocation, scan all frames,
seek to the first invalid one. -/
def NewSegmentWriterM (disk : List Nat) (segmentSize : Nat) : SegmentWriterM :=
  ⟨openWriterFile disk segmentSize,
   (scanFrom (openWriterFile disk segmentSize) 0).cursor,
   (scanFrom (openWriterFile disk segmentSize) 0).count,
   (scanFrom (openWriterFile disk segmentSize) 0).panicked⟩

/-- Embeds `SegmentWriter.EntryCount`. -/
def EntryCount (sw : SegmentWriterM) : Nat := sw.count

/-- State of a `SegmentReader`: the segment first index `index`
(`s.Index`), the file content, and the position table `pos` built by
`loadEntries`. -/
structure SegmentReaderM where
  index : Nat
  file : List Nat
  pos : List Nat
  deriving DecidableEq

/-- Embeds `NewSegmentReader` followed by `loadEntries`: the position
table records the positions of all valid frames from offset 0. -/
def NewSegmentReaderM (index : Nat) (file : List Nat) : SegmentReaderM :=
  ⟨index, file, (scanFrom file 0).positions⟩

/-- Subtraction of `uint64` values (two-complement wraparound), for
arguments below `2 ^ 64`. -/
def u64sub (a b : Nat) : Nat := (a + 2 ^ 64 - b % 2 ^ 64) % 2 ^ 64

/-- Reinterpretation of a `uint64` bit pattern as the 64-bit `int` of the
Go conversion `int(x)`. -/
def toInt64 (x : Nat) : Int := if x < 2 ^ 63 then (x : Int) else (x : Int) - 2 ^ 64

/-- Embeds `SegmentReader.readOneEntryFrom` (without copy): the parsed
entry, or the `nil` pointer when `readLog` fails. -/
def readOneEntryFromM (sr : SegmentReaderM) (pos : Nat) : Option LogEntry :=
  match readLog sr.file pos with
  | .ok e => some e
  | _ => none

/-- Embeds `SegmentReader.ReadLogByIndex` (current segment.go revision):
`pos := int(index - sr.s.Index)`; out of `[0, len(sr.pos))` yields
`ErrSegmentIndex`, otherwise the entry at `sr.pos[pos]` is returned with
a nil error. -/
def ReadLogByIndexM (sr : SegmentReaderM) (index : Nat) : Except Err (Option LogEntry) :=
  let p : Int := toInt64 (u64sub index sr.index)
  if p < 0 ∨ (sr.pos.length : Int) ≤ p then .error .segmentIndex
  else .ok (readOneEntryFromM sr (sr.pos.getD p.toNat 0))

/-- A registered codec (coder.go `Coder` interface): a type tag, an
encoder and a decoder over a payload byte slice.  The object universe is
a type parameter. -/
structure Coder (α : Type) where
  typ : Nat
  Encode : α → Except Err (List Nat)
  Decode : List Nat → Except Err α

/-- Tag 0 denotes raw bytes (`RawCoderType`, coder.go). -/
def RawCoderType : Nat := 0

/-- A value passed to the facade: the Go `interface{}` argument as
distinguished by `encodeObj`, either a byte slice or a codec object. -/
inductive ObjVal (α : Type) where
  | bytes (p : List Nat)
  | obj (a : α)

/-- Embeds `coderMap.GetCoder`: look up the per-log codec map; a missing
tag yields `ErrCoderNotExist`. -/
def GetCoder {α : Type} (coders : Nat → Option (Coder α)) (t : Nat) : Except Err (Coder α) :=
  match coders t with
  | some c => .ok c
  | none => .error .coderNotExist

/-- Embeds `Lws.encodeObj`: a byte-slice value forces the tag to
`RawCoderType`; any other value is encoded through the registered codec
for `t`, propagating lookup and encode errors with the tag. -/
def encodeObj {α : Type} (coders : Nat → Option (Coder α)) (t : Nat) (o : ObjVal α) :
    Nat × Except Err (List Nat) :=
  match o with
  | .bytes p => (RawCoderType, .ok p)
  | .obj a =>
    match GetCoder coders t with
    | .error e => (t, .error e)
    | .ok c =>
      match c.Encode a with
      | .error e => (t, .error e)
      | .ok data => (t, .ok data)

/-- Facade state relevant to `Lws.write`: the last written logical index,
the tail segment writer (file bytes, logical cursor, entry count) and the
per-log codec map. -/
structure LwsState (α : Type) where
  lastIndex : Nat
  swFile : List Nat
  swCursor : Nat
  swCount : Nat
  coders : Nat → Option (Coder α)

/-- Embeds `Lws.write` in the rotation-disabled configuration
(`opts.SegmentSize = 0` skips the rollover branch).  The encode-error
branch reproduces the source literally: `return 0, nil` drops the
error.  On success the frame is written at the writer cursor, the
cursor advances by the framed size, and `lastIndex` is incremented. -/
def lwsWrite {α : Type} (st : LwsState α) (typ : Nat) (o : ObjVal α) :
    (Nat × Option Err) × LwsState α :=
  match encodeObj st.coders typ o with
  | (_, .error _) => ((0, none), st)
  | (t, .ok data) =>
    (((st.lastIndex + 1), none),
     { st with
       swFile := writeLogAt st.swFile st.swCursor t data,
       swCursor := st.swCursor + data.length + 9,
       swCount := st.swCount + 1,
       lastIndex := st.lastIndex + 1 })

/-- Embeds `Lws.Write`: the single error value of the call. -/
def lwsWriteErr {α : Type} (st : LwsState α) (typ : Nat) (o : ObjVal α) :
    Option Err × LwsState α :=
  ((lwsWrite st typ o).1.2, (lwsWrite st typ o).2)

/-- Embeds `Lws.WriteBytes`: `l.write(0, data)` with a byte-slice value. -/
def lwsWriteBytes {α : Type} (st : LwsState α) (p : List Nat) :
    (Nat × Option Err) × LwsState α :=
  lwsWrite st 0 (.bytes p)

/-- Embeds `EntryElemnet.Get` over a segment reader container: the raw
payload of the entry at the element index. -/
def elemGet {α : Type} (_coders : Nat → Option (Coder α)) (sr : SegmentReaderM) (idx : Nat) :
    Except Err (List Nat) :=
  match ReadLogByIndexM sr idx with
  | .error e => .error e
  | .ok none => .error .nilEntry
  | .ok (some e) => .ok e.Data

/-- Embeds `EntryElemnet.GetObj` (part_011 revision): raw entries return
their payload; otherwise the payload is decoded through the container
codec map at the entry type tag. -/
def elemGetObj {α : Type} (coders : Nat → Option (Coder α)) (sr : SegmentReaderM) (idx : Nat) :
    Except Err (ObjVal α) :=
  match ReadLogByIndexM sr idx with
  | .error e => .error e
  | .ok none => .error .nilEntry
  | .ok (some e) =>
    if e.Typ = RawCoderType then .ok (.bytes e.Data)
    else
      match GetCoder coders e.Typ with
      | .error er => .error er
      | .ok c =>
        match c.Decode e.Data with
        | .error er => .error er
        | .ok a => .ok (.obj a)

/-- Embeds `Segment` as used by the purge path (lws.go/purge.go): id,
first index, file path. -/
structure Segment where
  ID : Nat
  Index : Nat
  Path : String
  deriving DecidableEq

instance : Inhabited Segment := ⟨⟨0, 0, ""⟩⟩

/-- Embeds the `ForEach` loop of `pureOverEntryLevel` (purge.go): walk the
group in order; collect the path of every segment whose first index is
at most `frm`; stop at the first segment whose first index exceeds
`frm`, recording its position in `at` (the Go variable keeps its zero
initial value when the loop never stops). -/
def entryLevelLoop (frm : Nat) : List Segment → Nat → Nat × List String
  | [], _ => (0, [])
  | s :: rest, i =>
    if frm < s.Index then (i, [])
    else
      ((entryLevelLoop frm rest (i + 1)).1, s.Path :: (entryLevelLoop frm rest (i + 1)).2)

/-- Embeds `purgeWorker.pureOverEntryLevel`: `from := lastIndex −
keepSoftEntries + 1` (`uint64`; the trigger guarantees
`keepSoftEntries ≤ lastIndex` so no wraparound occurs), then the loop;
when `at > 0` the boundary is `At(at − 1)` and its own path is dropped
from the deletion list, otherwise no boundary is reported. -/
def pureOverEntryLevel (keepSoftEntries lastIndex : Nat) (sgs : List Segment) :
    Option Segment × List String :=
  let frm := lastIndex - keepSoftEntries + 1
  let r := entryLevelLoop frm sgs 0
  if 0 < r.1 then (some (sgs.getD (r.1 - 1) default), r.2.dropLast)
  else (none, r.2)

/-- Embeds the `ForEach` loop of `pureOverFilesLevel`: the first
`threshold` segments are collected for deletion, the next one is the
boundary. -/
def filesLevelLoop (threshold : Nat) : List Segment → Nat → Option Segment × List String
  | [], _ => (none, [])
  | s :: rest, i =>
    if i < threshold then
      ((filesLevelLoop threshold rest (i + 1)).1,
        s.Path :: (filesLevelLoop threshold rest (i + 1)).2)
    else (some s, [])

/-- Embeds `purgeWorker.pureOverFilesLevel`. -/
def pureOverFilesLevel (keepFiles : Nat) (sgs : List Segment) :
    Option Segment × List String :=
  filesLevelLoop (sgs.length - keepFiles) sgs 0

/-- Embeds `segmentWaterPool.entryWaterLevel`:
`lastIndex − First().Index + 1` (callers keep `First().Index ≤
lastIndex`, so plain subtraction is exact). -/
def entryWaterLevel (lastIndex : Nat) (sgs : List Segment) : Nat :=
  lastIndex - (sgs.headD default).Index + 1

/-- Embeds `purgeWorker.purgeType`: 1 when the entry watermark is
exceeded, else 2 when the file watermark is exceeded, else 0. -/
def purgeType (keepSoftEntries keepFiles lastIndex : Nat) (sgs : List Segment) : Nat :=
  if 0 < keepSoftEntries ∧ keepSoftEntries < entryWaterLevel lastIndex sgs then 1
  else if 0 < keepFiles ∧ keepFiles < sgs.length then 2
  else 0

/-- Embeds `purgeWorker.Purge` up to its side effects: the boundary and
the list of file paths removed (`os.Remove` loop); with no boundary
nothing is removed. -/
def pwPurgeCompute (keepSoftEntries keepFiles lastIndex : Nat) (sgs : List Segment) :
    Option Segment × List String :=
  match purgeType keepSoftEntries keepFiles lastIndex sgs with
  | 1 => pureOverEntryLevel keepSoftEntries lastIndex sgs
  | 2 => pureOverFilesLevel keepFiles sgs
  | _ => (none, [])

/-- Facade state touched by `Lws.purge`: logical indices, the segment
group, the reader cache keys (segment ids) and the files on disk (by
path). -/
structure PurgeState where
  firstIndex : Nat
  lastIndex : Nat
  segments : List Segment
  cache : List Nat
  disk : List String
  deriving DecidableEq

/-- Embeds the cache-cleanup part of the `Lws.purge` callback: the loop
deletes the reader-cache entry of every segment it visits before the
boundary (all of them have `ID < boundary.ID`, and the loop stops at the
first segment that does not). -/
def purgeCacheClean (bID : Nat) (sgs : List Segment) (cache : List Nat) : List Nat :=
  cache.filter
    (fun id => ! decide (id ∈ (sgs.takeWhile (fun s => decide (s.ID < bID))).map Segment.ID))

/-- Embeds the `at` computation of the `Lws.purge` callback: Go
`var at int` starts at 0 and is assigned `i − 1` at the first segment
whose id is not below the boundary id. -/
def purgeCallbackAt (bID : Nat) : List Segment → Int → Int
  | [], _ => 0
  | s :: rest, i => if s.ID < bID then purgeCallbackAt bID rest (i + 1) else i - 1

/-- Embeds `SegmentGroup.Split` followed by keeping the suffix, as the
callback does with `l.segments.Split(at)`. -/
def splitDrop (sgs : List Segment) (i : Nat) : List Segment :=
  if sgs.length < i then [] else sgs.drop i

/-- Embeds `Lws.purge` after the guard and reader wait: the worker deletes
the computed files, then the callback updates `firstIndex`, cleans the
reader cache, and shrinks the segment group (`Split(at)` with
`at = boundaryPosition − 1`, as in the source). -/
def lwsPurgeApply (keepSoftEntries keepFiles : Nat) (st : PurgeState) : PurgeState :=
  match pwPurgeCompute keepSoftEntries keepFiles st.lastIndex st.segments with
  | (none, _) => st
  | (some b, files) =>
    { st with
      disk := st.disk.filter (fun p => ! decide (p ∈ files)),
      firstIndex := b.Index,
      cache := purgeCacheClean b.ID st.segments st.cache,
      segments :=
        if 0 ≤ purgeCallbackAt b.ID st.segments 0 then
          splitDrop st.segments (purgeCallbackAt b.ID st.segments 0).toNat
        else st.segments }

/-- Embeds `Chansema` (purge.go): a semaphore over a buffered channel;
`cap` is the capacity, `held` the number of queued tokens. -/
structure Chansema where
  cap : Nat
  held : Nat
  deriving DecidableEq

/-- Embeds `Chansema.TryAcquire`: the non-blocking send succeeds exactly
when the buffer has room. -/
def TryAcquire (cs : Chansema) : Bool × Chansema :=
  if cs.held < cs.cap then (true, { cs with held := cs.held + 1 }) else (false, cs)

/-- Embeds `Chansema.Release`: receive one token. -/
def semaRelease (cs : Chansema) : Chansema := { cs with held := cs.held - 1 }

/-- Embeds the package-level variable `purgeLocker = NewChansema(1)` of
purge.go: ONE semaphore per process, shared by every `Lws` value, not a
field of the `Lws` struct. -/
def purgeLockerInit : Chansema := ⟨1, 0⟩

/-- Embeds `purgeWorker.Guard`: try the process-global `purgeLocker`; on
failure return nil (no guarder). -/
def Guard (world : Chansema) : Option Unit × Chansema :=
  match TryAcquire world with
  | (true, w) => (some (), w)
  | (false, w) => (none, w)

/-- Embeds `Lws.purge` including its guard: `Probe` checks the watermarks
(no-op when none is exceeded); a failed guard acquisition returns
`ErrPurgeWorkExisted`; otherwise the purge runs and the deferred
`gurder.Release()` frees the global semaphore.  `world` is the
process-global `purgeLocker` state, shared across instances. -/
def lwsPurgeGuarded (keepSoftEntries keepFiles : Nat) (st : PurgeState) (world : Chansema) :
    (Option Err × PurgeState) × Chansema :=
  if purgeType keepSoftEntries keepFiles st.lastIndex st.segments = 0 then ((none, st), world)
  else
    match Guard world with
    | (none, w) => ((some .purgeWorkExisted, st), w)
    | (some _, w) =>
      ((none, lwsPurgeApply keepSoftEntries keepFiles st), semaRelease w)

/-- Embeds the Go constant expression `(1<<iota - 1) << 1` of the
`WriteFlag` block in options.go (Go precedence: `((1 <<< iota) - 1) <<< 1`). -/
def wfConst (iota : Nat) : Nat := ((1 <<< iota) - 1) <<< 1

/-- Embeds `WF_SYNCWRITE` (options.go): declared as the literal 1. -/
def WF_SYNCWRITE : Nat := 1

/-- Embeds `WF_TIMEDFLUSH`: the iota formula at iota = 1. -/
def WF_TIMEDFLUSH : Nat := wfConst 1

/-- Embeds `WF_QUOTAFLUSH`: the iota formula at iota = 2. -/
def WF_QUOTAFLUSH : Nat := wfConst 2

/-- Embeds `WF_SYNCFLUSH`: the iota formula at iota = 3. -/
def WF_SYNCFLUSH : Nat := wfConst 3

/-- The mask test idiom used by `tryFlush`/`Write`/`startFlushWorker`:
`wf&flag == flag`. -/
def hasWriteFlag (wf flag : Nat) : Bool := wf &&& flag == flag

/-- Embeds an `EntryIterator` (part_011 revision) together with the facade
live-reader counter that `Release` decrements through
`ReaderRelease`/`readRelease`. -/
structure IterWorld where
  index : Nat
  free : Bool
  readCount : Int
  deriving DecidableEq

/-- Embeds `EntryIterator.Release` (part_011 revision): a repeated call
finds `free` set and returns immediately; the first call marks the
iterator free and decrements the facade live-reader count once. -/
def iterRelease (w : IterWorld) : IterWorld :=
  if w.free then w
  else { w with free := true, readCount := w.readCount - 1 }

/-- Embeds `BytesAllocator` (allocate/mmap_allocate.go): a growable heap
buffer. -/
structure BytesAllocator where
  buf : List Nat
  deriving DecidableEq

/-- Embeds `BytesAllocator.Size`. -/
def bsaSize (b : BytesAllocator) : Nat := b.buf.length

/-- Embeds `BytesAllocator.Resize`: a size below the current one is a
no-op returning nil; otherwise a fresh zero-filled buffer of the
requested size replaces the old one (the `copy` is commented out in the
source) and nil is returned. -/
def bsaResize (b : BytesAllocator) (size : Int) : BytesAllocator × Option Err :=
  if size < (bsaSize b : Int) then (b, none)
  else ({ buf := List.replicate size.toNat 0 }, none)

/-- Embeds `BytesAllocator.AllocAt`/`allocAt`: negative offsets error, an
offset at or past the end yields `End`, otherwise the slice is clipped
to the buffer end. -/
def bsaAllocAt (b : BytesAllocator) (offset : Int) (n : Nat) : Except Err (List Nat) :=
  if offset < 0 then .error .negativeOffset
  else if (bsaSize b : Int) ≤ offset then .error .allocEnd
  else .ok ((b.buf.drop offset.toNat).take n)

/-- A facade state whose tail segment file holds the frames of `es`
followed by `k` zero bytes of pre-allocated padding, with the writer
cursor at the end of the valid data — the state `readAndCheck`
establishes on open. -/
def writerOn {α : Type} (coders : Nat → Option (Coder α)) (es : List (Nat × List Nat))
    (k li : Nat) : LwsState α :=
  ⟨li, concatFrames es ++ List.replicate k 0, (concatFrames es).length, es.length, coders⟩

theorem serializateUint32_length (v : Nat) : (serializateUint32 v).length = 4 := rfl

theorem deserializeUint32_serializateUint32 (v : Nat) (h : v < 2 ^ 32) :
    deserializeUint32 (serializateUint32 v) = v := by
  simp only [serializateUint32, deserializeUint32, List.getD_cons_zero, List.getD_cons_succ]
  omega

theorem crcBit_lt (c : Nat) (h : c < 2 ^ 32) : crcBit c < 2 ^ 32 := by
  unfold crcBit
  split
  · exact Nat.xor_lt_two_pow (by omega) (by norm_num [crcPoly])
  · omega

theorem crcByte_lt (c b : Nat) (h : c < 2 ^ 32) : crcByte c b < 2 ^ 32 := by
  unfold crcByte
  have h0 : c ^^^ b % 256 < 2 ^ 32 :=
    Nat.xor_lt_two_pow h (lt_of_lt_of_le (Nat.mod_lt _ (by norm_num)) (by norm_num))
  exact crcBit_lt _ (crcBit_lt _ (crcBit_lt _ (crcBit_lt _ (crcBit_lt _ (crcBit_lt _
    (crcBit_lt _ (crcBit_lt _ h0)))))))

theorem foldl_crcByte_lt (data : List Nat) (c : Nat) (h : c < 2 ^ 32) :
    data.foldl crcByte c < 2 ^ 32 := by
  induction data generalizing c with
  | nil => exact h
  | cons b rest ih => exact ih _ (crcByte_lt _ _ h)

theorem Checksum_lt (data : List Nat) : Checksum data < 2 ^ 32 := by
  unfold Checksum
  exact Nat.xor_lt_two_pow (foldl_crcByte_lt data _ (by norm_num)) (by norm_num)

theorem frameBytes_length (t : Nat) (data : List Nat) :
    (frameBytes t data).length = data.length + 9 := by
  simp [frameBytes, serializateUint32]

theorem readLog_ok_pos_lt {file : List Nat} {pos : Nat} {e : LogEntry}
    (h : readLog file pos = .ok e) : pos < file.length := by
  unfold readLog zmReadAt at h
  by_cases hp : file.length ≤ pos
  · simp [hp] at h
  · omega

theorem readLog_ok_len_pos {file : List Nat} {pos : Nat} {e : LogEntry}
    (h : readLog file pos = .ok e) : 1 ≤ e.Len := by
  unfold readLog at h
  rcases h1 : zmReadAt file pos lenSize with e1 | lbz
  · simp [h1] at h
  · rw [h1] at h
    simp only [] at h
    by_cases h2 : lbz.length < 4
    · simp [h2] at h
    · simp only [h2, if_false] at h
      rcases h3 : zmReadAt file (pos + lenSize) (deserializeUint32 lbz) with e2 | data
      · simp [h3] at h
      · rw [h3] at h
        by_cases h4 : data.length < 5
        · simp [h4] at h
        · simp only [h4, if_false, ReadOutcome.ok.injEq] at h
          have hl : deserializeUint32 lbz ≠ 0 := by
            intro h0
            rw [h0] at h3
            unfold zmReadAt at h3
            by_cases h5 : file.length ≤ pos + lenSize <;> simp [h5] at h3
          subst h
          simpa using Nat.one_le_iff_ne_zero.mpr hl

theorem scanFrom_eq_panic {file : List Nat} {pos : Nat}
    (h : readLog file pos = .panic) : scanFrom file pos = ⟨0, [], pos, true⟩ := by
  unfold scanFrom
  split <;> simp_all

theorem scanFrom_eq_fail {file : List Nat} {pos : Nat}
    (h : readLog file pos = .fail) : scanFrom file pos = ⟨0, [], pos, false⟩ := by
  unfold scanFrom
  split <;> simp_all

theorem scanFrom_eq_invalid {file : List Nat} {pos : Nat} {e : LogEntry}
    (h : readLog file pos = .ok e) (hv : e.Len = 0 ∨ ¬ crc32Check e.Crc32 e.Data) :
    scanFrom file pos = ⟨0, [], pos, false⟩ := by
  unfold scanFrom
  split <;> simp_all

theorem scanFrom_eq_valid {file : List Nat} {pos : Nat} {e : LogEntry}
    (h : readLog file pos = .ok e) (hv : ¬ (e.Len = 0 ∨ ¬ crc32Check e.Crc32 e.Data)) :
    scanFrom file pos =
      ⟨(scanFrom file (pos + e.Len + lenSize)).count + 1,
       pos :: (scanFrom file (pos + e.Len + lenSize)).positions,
       (scanFrom file (pos + e.Len + lenSize)).cursor,
       (scanFrom file (pos + e.Len + lenSize)).panicked⟩ := by
  conv_lhs => rw [scanFrom]
  split <;> simp_all

theorem deserializeUint32_append (a b : List Nat) (h : a.length = 4) :
    deserializeUint32 (a ++ b) = deserializeUint32 a := by
  unfold deserializeUint32
  rw [List.getD_append, List.getD_append, List.getD_append, List.getD_append] <;> omega

theorem concatFrames_length (es : List (Nat × List Nat)) :
    (concatFrames es).length = (es.map (fun p => p.2.length + 9)).sum := by
  induction es with
  | nil => rfl
  | cons p rest ih =>
    obtain ⟨t, d⟩ := p
    simp [concatFrames, frameBytes_length, ih]

/-- Parsing at the start of a frame recovers the framed record, whatever
bytes precede and follow the frame. -/
theorem readLog_frame (pre : List Nat) (t : Nat) (d : List Nat) (rest : List Nat)
    (hlen : d.length + 5 < 2 ^ 32) :
    readLog (pre ++ frameBytes t d ++ rest) pre.length = .ok (entryOf (t, d)) := by
  have hfb := frameBytes_length t d
  have hlen1 : ¬ (pre ++ frameBytes t d ++ rest).length ≤ pre.length := by
    simp only [List.length_append, hfb]; omega
  have hdrop : (pre ++ frameBytes t d ++ rest).drop pre.length = frameBytes t d ++ rest := by
    rw [List.append_assoc, List.drop_left]
  have hread4 : zmReadAt (pre ++ frameBytes t d ++ rest) pre.length lenSize =
      .ok (serializateUint32 (d.length + crc32Size + typeSize)) := by
    unfold zmReadAt
    rw [if_neg hlen1, if_neg (by norm_num [lenSize]), hdrop]
    show Except.ok ((frameBytes t d ++ rest).take lenSize) = _
    unfold frameBytes
    rw [List.append_assoc, List.append_assoc, List.append_assoc]
    show Except.ok (List.take (serializateUint32 (d.length + crc32Size + typeSize)).length _) = _
    rw [List.take_left]
  have hdes : deserializeUint32 (serializateUint32 (d.length + crc32Size + typeSize)) =
      d.length + crc32Size + typeSize :=
    deserializeUint32_serializateUint32 _ (by simp only [crc32Size, typeSize]; omega)
  have hdrop2 : (pre ++ frameBytes t d ++ rest).drop (pre.length + lenSize) =
      serializateUint32 (Checksum d) ++ [t] ++ d ++ rest := by
    have he : pre ++ frameBytes t d ++ rest =
        (pre ++ serializateUint32 (d.length + crc32Size + typeSize)) ++
          (serializateUint32 (Checksum d) ++ [t] ++ d ++ rest) := by
      simp [frameBytes]
    rw [he]
    have hl : (pre ++ serializateUint32 (d.length + crc32Size + typeSize)).length =
        pre.length + lenSize := by
      simp only [List.length_append, serializateUint32_length, lenSize]
    rw [← hl, List.drop_left]
  have hread2 : zmReadAt (pre ++ frameBytes t d ++ rest) (pre.length + lenSize)
      (d.length + crc32Size + typeSize) = .ok (serializateUint32 (Checksum d) ++ [t] ++ d) := by
    unfold zmReadAt
    rw [if_neg (by simp only [List.length_append, hfb, lenSize]; omega),
      if_neg (by simp only [crc32Size, typeSize]; omega), hdrop2]
    rw [List.take_left' (by simp only [List.length_append, serializateUint32_length,
      List.length_singleton, crc32Size, typeSize]; omega)]
  have h5 : ¬ ((serializateUint32 (Checksum d) ++ [t] ++ d).length < 5) := by
    simp only [List.length_append, serializateUint32_length, List.length_singleton]; omega
  have hcrc : deserializeUint32 (serializateUint32 (Checksum d) ++ [t] ++ d) = Checksum d := by
    have := Checksum_lt d
    simp only [serializateUint32, List.cons_append, List.nil_append, deserializeUint32,
      List.getD_cons_zero, List.getD_cons_succ]
    omega
  have htyp : (serializateUint32 (Checksum d) ++ [t] ++ d).getD crc32Size 0 = t := by
    simp [serializateUint32, crc32Size, List.getD]
  have hdat : (serializateUint32 (Checksum d) ++ [t] ++ d).drop (crc32Size + typeSize) = d := by
    simp [serializateUint32, crc32Size, typeSize]
  simp only [readLog, hread4, serializateUint32_length, hdes, hread2]
  rw [if_neg (by norm_num), if_neg h5]
  rw [hcrc, htyp, hdat]
  rfl

/-- Scanning a file that consists of well-formed frames followed by a tail
whose first parse stops the scan yields exactly the frames: their count,
their positions, and the cursor at the end of the last valid frame. -/
theorem scanFrom_frames (es : List (Nat × List Nat)) :
    ∀ (file pre tail : List Nat), file = pre ++ concatFrames es ++ tail → framesWF es →
    stopsHere file (pre.length + (concatFrames es).length) = true →
    scanFrom file pre.length =
      ⟨es.length, framePositions pre.length es,
       pre.length + (concatFrames es).length, false⟩ := by
  induction es with
  | nil =>
    intro file pre tail hfile hwf hstop
    simp only [concatFrames, List.length_nil, Nat.add_zero] at hstop ⊢
    cases hr : readLog file pre.length with
    | ok e =>
      rw [stopsHere, hr] at hstop
      refine scanFrom_eq_invalid hr ?_
      simpa using hstop
    | fail => exact scanFrom_eq_fail hr
    | panic => rw [stopsHere, hr] at hstop; exact absurd hstop (by simp)
  | cons p es ih =>
    obtain ⟨t, d⟩ := p
    intro file pre tail hfile hwf hstop
    have hd5 : d.length + 5 < 2 ^ 32 := hwf (t, d) (List.mem_cons_self _ _)
    have hfile2 : file = pre ++ frameBytes t d ++ (concatFrames es ++ tail) := by
      rw [hfile]; simp [concatFrames]
    have hr : readLog file pre.length = .ok (entryOf (t, d)) := by
      rw [hfile2]; exact readLog_frame pre t d _ hd5
    have hv : ¬ ((entryOf (t, d)).Len = 0 ∨ ¬ crc32Check (entryOf (t, d)).Crc32 (entryOf (t, d)).Data) := by
      simp [entryOf, crc32Check, crc32Size, typeSize]
    have hnext : pre.length + (entryOf (t, d)).Len + lenSize =
        (pre ++ frameBytes t d).length := by
      simp only [entryOf, List.length_append, frameBytes_length, crc32Size, typeSize, lenSize]
      omega
    have hwf2 : framesWF es := fun q hq => hwf q (List.mem_cons_of_mem _ hq)
    have hlen2 : (pre ++ frameBytes t d).length + (concatFrames es).length =
        pre.length + (concatFrames ((t, d) :: es)).length := by
      simp only [List.length_append, frameBytes_length, concatFrames]
      omega
    have hstop2 : stopsHere file ((pre ++ frameBytes t d).length + (concatFrames es).length) = true := by
      rw [hlen2]; exact hstop
    have hfile3 : file = (pre ++ frameBytes t d) ++ concatFrames es ++ tail := by
      rw [hfile2]; simp
    have hrec := ih file (pre ++ frameBytes t d) tail hfile3 hwf2 hstop2
    rw [scanFrom_eq_valid hr hv, hnext, hrec]
    have hplen : (pre ++ frameBytes t d).length = pre.length + d.length + 9 := by
      simp only [List.length_append, frameBytes_length]; omega
    simp only [ScanResult.mk.injEq]
    refine ⟨rfl, ?_, hlen2, trivial⟩
    rw [hplen]
    rfl

/-- A tail of zero bytes stops the scan: with at least four zero bytes the
length field reads as zero (`ReadLog` then fails on the zero-length
second read); with no bytes at all the first read hits EOF.  One to
three remaining bytes would make the Go code panic instead, which is why
that case is excluded. -/
theorem stopsHere_zeros (pre : List Nat) (k : Nat) (hk : k = 0 ∨ 4 ≤ k) :
    stopsHere (pre ++ List.replicate k 0) pre.length = true := by
  rcases hk with rfl | hk
  · have hr : readLog (pre ++ List.replicate 0 0) pre.length = .fail := by
      unfold readLog zmReadAt
      rw [if_pos (by simp)]
    rw [stopsHere, hr]
  · have hlbz : zmReadAt (pre ++ List.replicate k 0) pre.length lenSize =
        .ok (List.replicate 4 0) := by
      unfold zmReadAt
      rw [if_neg (by simp; omega), if_neg (by norm_num [lenSize]), List.drop_left]
      rw [List.take_replicate]
      have hmin : min lenSize k = 4 := by simp only [lenSize]; omega
      rw [hmin]
    have hr : readLog (pre ++ List.replicate k 0) pre.length = .fail := by
      unfold readLog
      rw [hlbz]
      have h0 : deserializeUint32 (List.replicate 4 0) = 0 := rfl
      simp only [List.length_replicate, h0]
      rw [if_neg (by norm_num)]
      unfold zmReadAt
      by_cases he : (pre ++ List.replicate k 0).length ≤ pre.length + lenSize
      · rw [if_pos he]
      · rw [if_neg he, if_pos rfl]
    rw [stopsHere, hr]

/-- Every position recorded by the scan parses to a valid entry (nonzero
length, CRC check passes).  Fuel-indexed strong induction on the scan
measure. -/
theorem scanFrom_positions_aux (file : List Nat) :
    ∀ (fuel pos : Nat), file.length + 5 - pos ≤ fuel →
    ∀ p ∈ (scanFrom file pos).positions,
    ∃ e, readLog file p = .ok e ∧ e.Len ≠ 0 ∧ crc32Check e.Crc32 e.Data = true := by
  intro fuel
  induction fuel with
  | zero =>
    intro pos hf p hp
    have hr : readLog file pos = .fail := by
      unfold readLog zmReadAt
      rw [if_pos (by omega)]
    rw [scanFrom_eq_fail hr] at hp
    simp at hp
  | succ n ihn =>
    intro pos hf p hp
    cases hr : readLog file pos with
    | fail => rw [scanFrom_eq_fail hr] at hp; simp at hp
    | panic => rw [scanFrom_eq_panic hr] at hp; simp at hp
    | ok e =>
      by_cases hv : e.Len = 0 ∨ ¬ crc32Check e.Crc32 e.Data
      · rw [scanFrom_eq_invalid hr hv] at hp
        simp at hp
      · rw [scanFrom_eq_valid hr hv] at hp
        push_neg at hv
        rcases List.mem_cons.mp hp with rfl | hp2
        · exact ⟨e, hr, hv.1, by simpa using hv.2⟩
        · have h1 := readLog_ok_pos_lt hr
          have h2 := readLog_ok_len_pos hr
          exact ihn (pos + e.Len + lenSize) (by simp only [lenSize]; omega) p hp2

theorem scanFrom_positions_parse (file : List Nat) (pos : Nat) :
    ∀ p ∈ (scanFrom file pos).positions,
    ∃ e, readLog file p = .ok e ∧ e.Len ≠ 0 ∧ crc32Check e.Crc32 e.Data = true :=
  scanFrom_positions_aux file (file.length + 5 - pos) pos le_rfl

theorem u64sub_of_le {a b : Nat} (hb : b < 2 ^ 64) (h : b ≤ a) (ha : a < 2 ^ 64) :
    u64sub a b = a - b := by
  unfold u64sub
  rw [Nat.mod_eq_of_lt hb]
  have he : a + 2 ^ 64 - b = (a - b) + 2 ^ 64 := by omega
  rw [he, Nat.add_mod_right, Nat.mod_eq_of_lt (by omega)]

theorem u64sub_of_lt {a b : Nat} (hb : b < 2 ^ 64) (h : a < b) :
    u64sub a b = a + 2 ^ 64 - b := by
  unfold u64sub
  rw [Nat.mod_eq_of_lt hb, Nat.mod_eq_of_lt (by omega)]

/-- Out-of-range indices produce `ErrSegmentIndex` (bounds as in the
current revision, which uses `pos >= len(sr.pos)`). -/
theorem ReadLogByIndexM_oob (sr : SegmentReaderM) (i : Nat)
    (hidx : sr.index < 2 ^ 64) (hn : sr.index + sr.pos.length < 2 ^ 63)
    (hi : i < 2 ^ 64) (h : i < sr.index ∨ sr.index + sr.pos.length ≤ i) :
    ReadLogByIndexM sr i = .error .segmentIndex := by
  unfold ReadLogByIndexM
  rw [if_pos ?hc]
  case hc =>
    rcases h with h | h
    · rw [u64sub_of_lt hidx h]
      unfold toInt64
      split
      · omega
      · left
        push_cast
        omega
    · rw [u64sub_of_le hidx (by omega) hi]
      unfold toInt64
      split
      · right
        omega
      · left
        push_cast
        omega

/-- In-range indices return the entry parsed at `pos[i - f]` with a nil
error. -/
theorem ReadLogByIndexM_ok (sr : SegmentReaderM) (i : Nat)
    (hidx : sr.index < 2 ^ 64) (hn : sr.index + sr.pos.length < 2 ^ 63)
    (h1 : sr.index ≤ i) (h2 : i < sr.index + sr.pos.length) :
    ReadLogByIndexM sr i = .ok (readOneEntryFromM sr (sr.pos.getD (i - sr.index) 0)) := by
  unfold ReadLogByIndexM
  have hu : u64sub i sr.index = i - sr.index := u64sub_of_le hidx h1 (by omega)
  have ht : toInt64 (u64sub i sr.index) = ((i - sr.index : Nat) : Int) := by
    rw [hu]; unfold toInt64; rw [if_pos (by omega)]
  rw [ht, if_neg (by omega)]
  simp

theorem concatFrames_append (es fs : List (Nat × List Nat)) :
    concatFrames (es ++ fs) = concatFrames es ++ concatFrames fs := by
  induction es with
  | nil => rfl
  | cons p rest ih =>
    obtain ⟨t, d⟩ := p
    simp [concatFrames, ih]

theorem framePositions_length (off : Nat) (es : List (Nat × List Nat)) :
    (framePositions off es).length = es.length := by
  induction es generalizing off with
  | nil => rfl
  | cons p rest ih =>
    obtain ⟨t, d⟩ := p
    simp [framePositions, ih]

theorem framePositions_append (off : Nat) (es fs : List (Nat × List Nat)) :
    framePositions off (es ++ fs) =
      framePositions off es ++ framePositions (off + (concatFrames es).length) fs := by
  induction es generalizing off with
  | nil => simp [framePositions, concatFrames]
  | cons p rest ih =>
    obtain ⟨t, d⟩ := p
    rw [List.cons_append]
    show off :: framePositions (off + d.length + 9) (rest ++ fs) = _
    have hR : framePositions off ((t, d) :: rest) =
        off :: framePositions (off + d.length + 9) rest := rfl
    rw [hR, List.cons_append]
    congr 1
    rw [ih]
    have harith : off + d.length + 9 + (concatFrames rest).length =
        off + (concatFrames ((t, d) :: rest)).length := by
      show _ = off + (frameBytes t d ++ concatFrames rest).length
      rw [List.length_append, frameBytes_length]
      omega
    rw [harith]

/-- Writing `bs` at the end of the data region of a zero-padded file
overwrites the zeros and keeps any remaining padding. -/
theorem storeAt_zeros (pre : List Nat) (k : Nat) (bs : List Nat) :
    storeAt (pre ++ List.replicate k 0) pre.length bs =
      pre ++ bs ++ List.replicate (k - bs.length) 0 := by
  unfold storeAt
  by_cases hk : k < bs.length
  · have hext : extendTo (pre ++ List.replicate k 0) (pre.length + bs.length) =
        pre ++ List.replicate bs.length 0 := by
      unfold extendTo
      rw [if_pos (by simp; omega), List.append_assoc, ← List.replicate_add]
      congr 2
      simp
      omega
    rw [hext, List.take_left]
    have hd : (pre ++ List.replicate bs.length 0).drop (pre.length + bs.length) = [] := by
      apply List.drop_eq_nil_of_le
      simp
    rw [hd]
    have hz : k - bs.length = 0 := by omega
    rw [hz]
    simp
  · have hext : extendTo (pre ++ List.replicate k 0) (pre.length + bs.length) =
        pre ++ List.replicate k 0 := by
      unfold extendTo
      rw [if_neg (by simp; omega)]
    rw [hext, List.take_left]
    have hd : (pre ++ List.replicate k 0).drop (pre.length + bs.length) =
        List.replicate (k - bs.length) 0 := by
      rw [List.drop_append, List.drop_replicate]
    rw [hd, List.append_assoc]

/-- Parsing at the `j`-th recorded frame position recovers the `j`-th
record. -/
theorem framePositions_mem_parse (es : List (Nat × List Nat)) :
    ∀ (pre tail : List Nat), framesWF es →
    ∀ j, j < es.length →
    readLog (pre ++ concatFrames es ++ tail) ((framePositions pre.length es).getD j 0) =
      .ok (entryOf (es.getD j (0, []))) := by
  induction es with
  | nil => intro pre tail _ j hj; simp at hj
  | cons p rest ih =>
    obtain ⟨t, d⟩ := p
    intro pre tail hwf j hj
    cases j with
    | zero =>
      show readLog (pre ++ concatFrames ((t, d) :: rest) ++ tail) pre.length =
        .ok (entryOf (t, d))
      have hfile : pre ++ concatFrames ((t, d) :: rest) ++ tail =
          pre ++ frameBytes t d ++ (concatFrames rest ++ tail) := by
        simp [concatFrames]
      rw [hfile]
      exact readLog_frame pre t d _ (hwf (t, d) (List.mem_cons_self _ _))
    | succ n =>
      have hfile : pre ++ concatFrames ((t, d) :: rest) ++ tail =
          (pre ++ frameBytes t d) ++ concatFrames rest ++ tail := by
        simp [concatFrames]
      have hpos : (framePositions pre.length ((t, d) :: rest)).getD (n + 1) 0 =
          (framePositions (pre ++ frameBytes t d).length rest).getD n 0 := by
        show (pre.length :: framePositions (pre.length + d.length + 9) rest).getD (n + 1) 0 = _
        rw [List.getD_cons_succ]
        congr 2
        simp only [List.length_append, frameBytes_length]
        omega
      rw [hfile, hpos]
      exact ih (pre ++ frameBytes t d) tail
        (fun q hq => hwf q (List.mem_cons_of_mem _ hq)) n (by simpa using hj)

/-- Appending a frame at the writer cursor of a zero-padded segment file
extends the frame sequence and shrinks the padding. -/
theorem writeLogAt_concat (es : List (Nat × List Nat)) (k t : Nat) (data : List Nat) :
    writeLogAt (concatFrames es ++ List.replicate k 0) (concatFrames es).length t data =
      concatFrames (es ++ [(t, data)]) ++ List.replicate (k - (data.length + 9)) 0 := by
  unfold writeLogAt
  rw [storeAt_zeros, frameBytes_length, concatFrames_append]
  simp [concatFrames]

/-- Reading index `f + j` from a reader opened on a file of `es` frames
plus zero padding returns the `j`-th record's entry with a nil error. -/
theorem ReadLogByIndexM_frames (f : Nat) (es : List (Nat × List Nat)) (g : Nat) (j : Nat)
    (hwf : framesWF es) (hg : g = 0 ∨ 4 ≤ g) (hj : j < es.length)
    (hrange : f + es.length < 2 ^ 63) :
    ReadLogByIndexM (NewSegmentReaderM f (concatFrames es ++ List.replicate g 0)) (f + j) =
      .ok (some (entryOf (es.getD j (0, [])))) := by
  have hstop : stopsHere (concatFrames es ++ List.replicate g 0)
      (([] : List Nat).length + (concatFrames es).length) = true := by
    simpa using stopsHere_zeros (concatFrames es) g hg
  have hscan := scanFrom_frames es (concatFrames es ++ List.replicate g 0) [] (List.replicate g 0)
    (by simp) hwf hstop
  simp only [List.length_nil, Nat.zero_add] at hscan
  have hpos : (NewSegmentReaderM f (concatFrames es ++ List.replicate g 0)).pos =
      framePositions 0 es := by
    show (scanFrom (concatFrames es ++ List.replicate g 0) 0).positions = _
    rw [hscan]
  have hn : (NewSegmentReaderM f (concatFrames es ++ List.replicate g 0)).pos.length =
      es.length := by
    rw [hpos, framePositions_length]
  have hidx : (NewSegmentReaderM f (concatFrames es ++ List.replicate g 0)).index = f := rfl
  have hfile : (NewSegmentReaderM f (concatFrames es ++ List.replicate g 0)).file =
      concatFrames es ++ List.replicate g 0 := rfl
  have hok := ReadLogByIndexM_ok (NewSegmentReaderM f (concatFrames es ++ List.replicate g 0))
    (f + j) (by rw [hidx]; omega) (by rw [hidx, hn]; omega) (by rw [hidx]; omega)
    (by rw [hidx, hn]; omega)
  rw [hok]
  have hij : f + j - (NewSegmentReaderM f (concatFrames es ++ List.replicate g 0)).index = j := by
    rw [hidx]; omega
  rw [hij, hpos]
  have hparse := framePositions_mem_parse es [] (List.replicate g 0) hwf j hj
  simp only [List.nil_append, List.length_nil] at hparse
  simp only [readOneEntryFromM, hfile, hparse]

/-- Claim C6: when no codec is registered for a non-raw type, the registry
lookup yields the `CoderNotExist` error and `last_index` and the stored
log contents are unchanged — but `Lws.write` (hence `Write`,
`WriteRetIndex` and `WriteBytes`) returns `(0, nil)`: the branch
`if err != nil { return 0, nil }` drops the error instead of returning
it, contradicting the doc comments of `WriteBytes`/`WriteRetIndex`
("失败返回0&err", failure returns `0&err`). -/
theorem claim_C6 {α : Type} (st : LwsState α) (t : Nat) (a : α)
    (hc : st.coders t = none) :
    GetCoder st.coders t = .error .coderNotExist ∧
    (encodeObj st.coders t (.obj a)).2 = .error .coderNotExist ∧
    lwsWrite st t (.obj a) = ((0, none), st) ∧
    lwsWriteErr st t (.obj a) = (none, st) := by
  have h1 : GetCoder st.coders t = .error .coderNotExist := by
    unfold GetCoder
    rw [hc]
  refine ⟨h1, ?_, ?_, ?_⟩ <;> simp [encodeObj, lwsWrite, lwsWriteErr, h1]

/-- Claim C6 (witness): a facade with an empty codec map, written with
type 5 and a non-bytes object. -/
theorem claim_C6_witness :
    ((⟨0, [], 0, 0, fun _ => none⟩ : LwsState Nat).coders 5 = none) ∧
    lwsWrite (⟨0, [], 0, 0, fun _ => none⟩ : LwsState Nat) 5 (.obj 7) =
      ((0, none), (⟨0, [], 0, 0, fun _ => none⟩ : LwsState Nat)) :=
  ⟨rfl, (claim_C6 (⟨0, [], 0, 0, fun _ => none⟩ : LwsState Nat) 5 7 rfl).2.2.1⟩

/-- Claim C7 (counterexample): the `WriteFlag` constants computed by the
iota expression of options.go are not `4` and `8` — the claimed values
are wrong for the two higher flags. -/
theorem claim_C7_counterexample :
    ¬ (WF_SYNCWRITE = 1 ∧ WF_TIMEDFLUSH = 2 ∧ WF_QUOTAFLUSH = 4 ∧ WF_SYNCFLUSH = 8) := by
  decide

/-- Claim C7 (amended): the `write_flag` constants have the values
`WF_SYNCWRITE = 1`, `WF_TIMEDFLUSH = 2`, `WF_QUOTAFLUSH = 6` and
`WF_SYNCFLUSH = 14`; the two higher flags are multi-bit masks that
contain the `WF_TIMEDFLUSH` bit, so the flags do not occupy distinct
single bits and combinations are not independent — for example a writer
configured with `WF_SYNCFLUSH` alone also passes the `WF_QUOTAFLUSH`
mask test used by `tryFlush`. -/
theorem claim_C7 :
    WF_SYNCWRITE = 1 ∧ WF_TIMEDFLUSH = 2 ∧ WF_QUOTAFLUSH = 6 ∧ WF_SYNCFLUSH = 14 ∧
    WF_QUOTAFLUSH &&& WF_TIMEDFLUSH ≠ 0 ∧ WF_SYNCFLUSH &&& WF_QUOTAFLUSH ≠ 0 ∧
    hasWriteFlag WF_SYNCFLUSH WF_QUOTAFLUSH = true ∧
    hasWriteFlag (WF_TIMEDFLUSH ||| WF_QUOTAFLUSH) WF_QUOTAFLUSH =
      hasWriteFlag WF_QUOTAFLUSH WF_QUOTAFLUSH := by
  decide

/-- Claim C8: `EntryIterator.Release` (part_011 revision, the one the
current facade compiles against) is idempotent: the first call marks the
iterator free and decrements the facade live-reader count exactly once,
and every subsequent call is a no-op on the whole state. -/
theorem claim_C8 (w : IterWorld) :
    iterRelease (iterRelease w) = iterRelease w ∧
    (iterRelease w).readCount = (if w.free then w.readCount else w.readCount - 1) ∧
    (iterRelease w).free = true := by
  unfold iterRelease
  by_cases h : w.free <;> simp [h]

/-- Claim C9 (counterexample): `purgeLocker` is a package-level variable;
after a purge on one instance acquires it, `Purge` on a different,
independently opened instance (here: one segment, `last_index = 20`,
`keep_soft_entries = 10`, so its own probe passes) fails with
`ErrPurgeWorkExisted` — the claim says a purge in progress on one
instance never causes that. -/
theorem claim_C9_counterexample :
    (Guard purgeLockerInit).1 = some () ∧
    (lwsPurgeGuarded 10 0 ⟨1, 20, [⟨1, 1, "a"⟩], [], ["a"]⟩ (Guard purgeLockerInit).2).1 =
      (some .purgeWorkExisted, ⟨1, 20, [⟨1, 1, "a"⟩], [], ["a"]⟩) := by
  decide

/-- Claim C9 (amended): the single-slot purge semaphore is the
package-global `purgeLocker`, not a per-instance field: whenever the
global semaphore is exhausted — by a purge in progress on ANY `Lws`
instance of the process — `Purge` on any instance whose watermark probe
passes returns `ErrPurgeWorkExisted` and changes neither the instance
state nor the semaphore. -/
theorem claim_C9 (st : PurgeState) (keepSoft keepFiles : Nat) (world : Chansema)
    (hheld : world.cap ≤ world.held)
    (hprobe : purgeType keepSoft keepFiles st.lastIndex st.segments ≠ 0) :
    lwsPurgeGuarded keepSoft keepFiles st world = ((some .purgeWorkExisted, st), world) := by
  unfold lwsPurgeGuarded Guard TryAcquire
  rw [if_neg hprobe, if_neg (by omega)]

/-- Claim C9 (witness): the amended theorem applied to the concrete held
world of the counterexample trace. -/
theorem claim_C9_witness :
    purgeLockerInit.held + 1 ≤ 1 + purgeLockerInit.held ∧
    lwsPurgeGuarded 10 0 ⟨1, 20, [⟨1, 1, "a"⟩], [], ["a"]⟩ ⟨1, 1⟩ =
      ((some .purgeWorkExisted, ⟨1, 20, [⟨1, 1, "a"⟩], [], ["a"]⟩), ⟨1, 1⟩) :=
  ⟨by omega,
   claim_C9 ⟨1, 20, [⟨1, 1, "a"⟩], [], ["a"]⟩ 10 0 ⟨1, 1⟩ (by decide) (by decide)⟩

/-- Claim C10: `BytesAllocator.Resize` is size-monotonic but not
content-preserving: a request below the current size leaves the
allocator unchanged and returns nil; a request at or above it installs a
fresh zero-filled buffer of the requested size (the copy is commented
out), so every byte previously written through `AllocAt` slices reads
back as zero after the grow. -/
theorem claim_C10 (b : BytesAllocator) (size : Int) :
    (size < (bsaSize b : Int) → bsaResize b size = (b, none)) ∧
    ((bsaSize b : Int) ≤ size →
      (bsaResize b size).1.buf = List.replicate size.toNat 0 ∧
      (bsaResize b size).2 = none ∧
      bsaSize (bsaResize b size).1 = size.toNat ∧
      ∀ off n bs, bsaAllocAt (bsaResize b size).1 off n = .ok bs → ∀ x ∈ bs, x = 0) := by
  constructor
  · intro h
    unfold bsaResize
    rw [if_pos h]
  · intro h
    have hres : bsaResize b size = (⟨List.replicate size.toNat 0⟩, none) := by
      unfold bsaResize
      rw [if_neg (by omega)]
    refine ⟨by rw [hres], by rw [hres], by rw [hres]; simp [bsaSize], ?_⟩
    intro off n bs hbs x hx
    rw [hres] at hbs
    unfold bsaAllocAt at hbs
    split at hbs
    · exact absurd hbs (by simp)
    · split at hbs
      · exact absurd hbs (by simp)
      · simp only [Except.ok.injEq] at hbs
        subst hbs
        have hx2 := List.mem_of_mem_take hx
        have hx3 := List.mem_of_mem_drop hx2
        exact List.eq_of_mem_replicate hx3

/-- Claim C10 (witness): a three-byte allocator holding `[1, 2, 3]`:
`Resize 2` is a no-op returning nil, `Resize 5` installs five zero
bytes, and an `AllocAt` slice after the grow reads back zeros. -/
theorem claim_C10_witness :
    ((2 : Int) < (bsaSize ⟨[1, 2, 3]⟩ : Int) ∧
      bsaResize ⟨[1, 2, 3]⟩ 2 = (⟨[1, 2, 3]⟩, none)) ∧
    ((bsaSize ⟨[1, 2, 3]⟩ : Int) ≤ 5 ∧
      (bsaResize ⟨[1, 2, 3]⟩ 5).1.buf = List.replicate (5 : Int).toNat 0) :=
  ⟨⟨by decide, (claim_C10 ⟨[1, 2, 3]⟩ 2).1 (by decide)⟩,
   ⟨by decide, ((claim_C10 ⟨[1, 2, 3]⟩ 5).2 (by decide)).1⟩⟩

/-- The `ForEach` loop of `pureOverEntryLevel` on a group that splits into
segments at or below the threshold, the boundary, and a first segment
above the threshold: it stops right after the boundary, having collected
the paths up to and including it. -/
theorem entryLevelLoop_decomp (frm : Nat) (A : List Segment) (b s0 : Segment)
    (B : List Segment) :
    ∀ i0 : Nat, (∀ s ∈ A, s.Index ≤ frm) → b.Index ≤ frm → frm < s0.Index →
    entryLevelLoop frm (A ++ b :: s0 :: B) i0 =
      (i0 + A.length + 1, A.map Segment.Path ++ [b.Path]) := by
  induction A with
  | nil =>
    intro i0 _ hb hs0
    show entryLevelLoop frm (b :: s0 :: B) i0 = (i0 + 0 + 1, [b.Path])
    have hrec : entryLevelLoop frm (s0 :: B) (i0 + 1) = (i0 + 1, []) := by
      unfold entryLevelLoop
      rw [if_pos hs0]
    unfold entryLevelLoop
    rw [if_neg (by omega), hrec]
  | cons s rest ih =>
    intro i0 hA hb hs0
    show entryLevelLoop frm (s :: (rest ++ b :: s0 :: B)) i0 = _
    unfold entryLevelLoop
    rw [if_neg (by have := hA s (List.mem_cons_self _ _); omega),
      ih (i0 + 1) (fun q hq => hA q (List.mem_cons_of_mem _ hq)) hb hs0]
    simp only [List.map_cons, List.cons_append, Prod.mk.injEq, List.length_cons]
    constructor
    · omega
    · trivial

theorem takeWhile_decomp (p : Segment → Bool) (A : List Segment) (b : Segment)
    (B : List Segment) (hA : ∀ s ∈ A, p s = true) (hb : p b = false) :
    (A ++ b :: B).takeWhile p = A := by
  induction A with
  | nil => simp [List.takeWhile_cons, hb]
  | cons s rest ih =>
    rw [List.cons_append, List.takeWhile_cons, hA s (List.mem_cons_self _ _)]
    simp only [if_true]
    rw [ih (fun q hq => hA q (List.mem_cons_of_mem _ hq))]

/-- Claim C4 (counterexample): entry-watermark purge with
`keep_soft_entries = 10`, two segments with first indices 1 and 50, and
`last_index = 100`.  The watermark triggers (100 entries > 10) and the
claim's boundary — the last segment whose first index is at most
`100 − 10 + 1 = 91` — is the second segment, so the claim requires the
first segment's file "a" to be deleted and `first_index` to become 50.
The code finds no segment with first index above 91, reports no
boundary, and leaves everything unchanged. -/
theorem claim_C4_counterexample :
    purgeType 10 0 100 [⟨1, 1, "a"⟩, ⟨2, 50, "b"⟩] = 1 ∧
    (∀ s ∈ [(⟨1, 1, "a"⟩ : Segment), ⟨2, 50, "b"⟩], s.Index ≤ 100 - 10 + 1) ∧
    lwsPurgeApply 10 0 ⟨1, 100, [⟨1, 1, "a"⟩, ⟨2, 50, "b"⟩], [1, 2], ["a", "b"]⟩ =
      ⟨1, 100, [⟨1, 1, "a"⟩, ⟨2, 50, "b"⟩], [1, 2], ["a", "b"]⟩ := by
  decide

/-- Claim C4 (amended): for an entry-watermark purge where at least one
segment's first index exceeds `last_index − keep_soft_entries + 1`
(decomposition `A ++ b :: s0 :: B` with `A` and `b` at or below the
threshold and `s0` above it), the boundary is `b` — the last segment
whose first index does not exceed the threshold — the files deleted are
exactly those of the segments strictly before `b`, and afterwards
`first_index` equals `b`'s first index, no removed segment's file
remains on disk, and the reader cache has no entry for any removed
segment.  When no segment's first index exceeds the threshold, the
purge deletes nothing (see the counterexample). -/
theorem claim_C4 (st : PurgeState) (keepSoft keepFiles : Nat)
    (A : List Segment) (b s0 : Segment) (B : List Segment)
    (hdecomp : st.segments = A ++ b :: s0 :: B)
    (hks : 0 < keepSoft)
    (htrig : keepSoft < entryWaterLevel st.lastIndex st.segments)
    (hA : ∀ s ∈ A, s.Index ≤ st.lastIndex - keepSoft + 1)
    (hb : b.Index ≤ st.lastIndex - keepSoft + 1)
    (hs0 : st.lastIndex - keepSoft + 1 < s0.Index)
    (hid : ∀ s ∈ A, s.ID < b.ID) :
    pureOverEntryLevel keepSoft st.lastIndex st.segments = (some b, A.map Segment.Path) ∧
    (lwsPurgeApply keepSoft keepFiles st).firstIndex = b.Index ∧
    (∀ s ∈ A, s.Path ∉ (lwsPurgeApply keepSoft keepFiles st).disk) ∧
    (∀ s ∈ A, s.ID ∉ (lwsPurgeApply keepSoft keepFiles st).cache) ∧
    (∀ x ∈ st.disk, x ∉ A.map Segment.Path → x ∈ (lwsPurgeApply keepSoft keepFiles st).disk) := by
  have hloop := entryLevelLoop_decomp (st.lastIndex - keepSoft + 1) A b s0 B 0 hA hb hs0
  have hpure : pureOverEntryLevel keepSoft st.lastIndex st.segments =
      (some b, A.map Segment.Path) := by
    simp only [pureOverEntryLevel]
    rw [hdecomp, hloop, if_pos (by omega)]
    have harr : 0 + A.length + 1 - 1 = A.length := by omega
    have hgd : (A ++ b :: s0 :: B).getD A.length default = b := by
      rw [List.getD_append_right A (b :: s0 :: B) default A.length le_rfl, Nat.sub_self]
      rfl
    simp only [harr, hgd, List.dropLast_concat]
  have htype : purgeType keepSoft keepFiles st.lastIndex st.segments = 1 := by
    unfold purgeType
    rw [if_pos ⟨hks, htrig⟩]
  have hcompute : pwPurgeCompute keepSoft keepFiles st.lastIndex st.segments =
      (some b, A.map Segment.Path) := by
    unfold pwPurgeCompute
    rw [htype]
    exact hpure
  have htw : st.segments.takeWhile (fun s => decide (s.ID < b.ID)) = A := by
    rw [hdecomp]
    exact takeWhile_decomp _ A b (s0 :: B)
      (fun s hs => by simp [hid s hs]) (by simp)
  have happly : lwsPurgeApply keepSoft keepFiles st =
      { st with
        disk := st.disk.filter (fun p => ! decide (p ∈ A.map Segment.Path)),
        firstIndex := b.Index,
        cache := purgeCacheClean b.ID st.segments st.cache,
        segments :=
          if 0 ≤ purgeCallbackAt b.ID st.segments 0 then
            splitDrop st.segments (purgeCallbackAt b.ID st.segments 0).toNat
          else st.segments } := by
    unfold lwsPurgeApply
    rw [hcompute]
  refine ⟨hpure, ?_, ?_, ?_, ?_⟩
  · rw [happly]
  · intro s hs hmem
    rw [happly] at hmem
    simp only [List.mem_filter, Bool.not_eq_true', decide_eq_false_iff_not] at hmem
    exact hmem.2 (List.mem_map_of_mem _ hs)
  · intro s hs hmem
    rw [happly] at hmem
    have hmem2 : s.ID ∈ st.cache.filter
        (fun id => ! decide (id ∈ (st.segments.takeWhile
          (fun q => decide (q.ID < b.ID))).map Segment.ID)) := hmem
    rw [htw] at hmem2
    simp only [List.mem_filter, Bool.not_eq_true', decide_eq_false_iff_not] at hmem2
    exact hmem2.2 (List.mem_map_of_mem _ hs)
  · intro x hx hnx
    rw [happly]
    simp only [List.mem_filter, Bool.not_eq_true', decide_eq_false_iff_not]
    exact ⟨hx, hnx⟩

/-- Claim C4 (witness): three segments with first indices 10, 30, 60,
`last_index = 100`, `keep_soft_entries = 60`: the threshold is 41, the
boundary is the segment with first index 30 and exactly the first
segment's file is purged, after which `first_index` is 30. -/
theorem claim_C4_witness :
    (0 : Nat) < 60 ∧
    pureOverEntryLevel 60 100 [⟨1, 10, "a"⟩, ⟨2, 30, "b"⟩, ⟨3, 60, "c"⟩] =
      (some ⟨2, 30, "b"⟩, ["a"]) ∧
    (lwsPurgeApply 60 7 ⟨10, 100, [⟨1, 10, "a"⟩, ⟨2, 30, "b"⟩, ⟨3, 60, "c"⟩], [1, 2, 3],
      ["a", "b", "c"]⟩).firstIndex = 30 := by
  have h := claim_C4
    ⟨10, 100, [⟨1, 10, "a"⟩, ⟨2, 30, "b"⟩, ⟨3, 60, "c"⟩], [1, 2, 3], ["a", "b", "c"]⟩
    60 7 [⟨1, 10, "a"⟩] ⟨2, 30, "b"⟩ ⟨3, 60, "c"⟩ [] rfl (by decide) (by decide)
    (by decide) (by decide) (by decide) (by decide)
  exact ⟨by decide, h.1, h.2.1⟩

/-- Claim C3 (counterexample): a segment file holding one valid frame
followed by a two-byte zero tail, opened without pre-allocation
(`segmentSize = 0`, so nothing pads the tail): the first invalid frame
starts at `P = 9` with only two bytes remaining.  The claim requires the
reopened writer to yield `entry_count = 1` and the cursor at 9; instead
the scan reads a two-byte length slice and the Go code panics inside
`binary.BigEndian.Uint32`, producing no writer at all (the model records
this as `panicked = true`). -/
theorem claim_C3_counterexample :
    NewSegmentWriterM (frameBytes 0 [] ++ [0, 0]) 0 =
      ⟨frameBytes 0 [] ++ [0, 0], 9, 1, true⟩ := by
  have hop : openWriterFile (frameBytes 0 [] ++ [0, 0]) 0 = frameBytes 0 [] ++ [0, 0] := rfl
  have h0 : readLog (frameBytes 0 [] ++ [0, 0]) 0 = .ok (entryOf (0, [])) := by decide
  have hpan : readLog (frameBytes 0 [] ++ [0, 0])
      (0 + (entryOf (0, ([] : List Nat))).Len + lenSize) = .panic := by decide
  have hscan : scanFrom (frameBytes 0 [] ++ [0, 0]) 0 = ⟨1, [0], 9, true⟩ := by
    rw [scanFrom_eq_valid h0 (by decide), scanFrom_eq_panic hpan]
    decide
  unfold NewSegmentWriterM
  rw [hop, hscan]

/-- Claim C3 (amended): opening a `SegmentWriter` on a segment file whose
content (after the `segmentSize` pre-allocation of `newLogFile`) is a
sequence of well-formed frames followed by a tail whose first parse is
missing, zero-length or CRC-failing, yields `EntryCount` equal to the
number of valid frames and the logical seek cursor at the offset `P` of
the first invalid frame, so subsequent appends overwrite from `P`; the
scan does not panic.  (The proviso on the tail is necessary: a tail of
one to three zero bytes panics the scan instead, see the
counterexample.) -/
theorem claim_C3 (disk : List Nat) (segmentSize : Nat) (es : List (Nat × List Nat))
    (tail : List Nat)
    (hdisk : openWriterFile disk segmentSize = concatFrames es ++ tail)
    (hwf : framesWF es)
    (hstop : stopsHere (openWriterFile disk segmentSize) ((concatFrames es).length) = true) :
    EntryCount (NewSegmentWriterM disk segmentSize) = es.length ∧
    (NewSegmentWriterM disk segmentSize).cursor = (concatFrames es).length ∧
    (NewSegmentWriterM disk segmentSize).panicked = false := by
  have hscan := scanFrom_frames es (openWriterFile disk segmentSize) [] tail
    (by simpa using hdisk) hwf (by simpa using hstop)
  simp only [List.length_nil, Nat.zero_add] at hscan
  unfold NewSegmentWriterM EntryCount
  rw [hscan]
  exact ⟨rfl, rfl, rfl⟩

/-- Claim C3 (witness): one frame of payload `[7]` followed by six zero
bytes of padding; reopening yields one entry and the cursor at offset
10. -/
theorem claim_C3_witness :
    (openWriterFile (frameBytes 1 [7] ++ List.replicate 6 0) 0 =
      concatFrames [(1, [7])] ++ List.replicate 6 0) ∧
    EntryCount (NewSegmentWriterM (frameBytes 1 [7] ++ List.replicate 6 0) 0) = 1 ∧
    (NewSegmentWriterM (frameBytes 1 [7] ++ List.replicate 6 0) 0).cursor = 10 := by
  have h := claim_C3 (frameBytes 1 [7] ++ List.replicate 6 0) 0 [(1, [7])]
    (List.replicate 6 0) (by decide) (by decide) (by decide)
  exact ⟨by decide, h.1, by rw [h.2.1]; decide⟩

/-- Claim C1 (counterexample): the segment writer frames the record with
type byte 1 and empty payload; the reader reports this entry (position
table `[0]`), its `len` field is `5 = 5 + |payload|` as claimed, but the
stored checksum field is `crc32(payload) = crc32(empty) = 0`, which
differs from the claimed `crc32(type ‖ payload) = crc32(0x01)`: the type
byte is not covered by the checksum. -/
theorem claim_C1_counterexample :
    (NewSegmentReaderM 1 (writeLogAt [] 0 1 [])).pos = [0] ∧
    readLog (writeLogAt [] 0 1 []) 0 = .ok ⟨5, Checksum [], 1, []⟩ ∧
    Checksum [] ≠ Checksum ([1] ++ []) := by
  have hfile : writeLogAt [] 0 1 [] = concatFrames [(1, [])] ++ [] := by decide
  have hstop : stopsHere (writeLogAt [] 0 1 [])
      (([] : List Nat).length + (concatFrames [(1, [])]).length) = true := by decide
  have hscan := scanFrom_frames [(1, [])] (writeLogAt [] 0 1 []) [] []
    (by simpa using hfile) (by decide) hstop
  simp only [List.length_nil] at hscan
  refine ⟨?_, by decide, by decide⟩
  show (scanFrom (writeLogAt [] 0 1 []) 0).positions = [0]
  rw [hscan]
  decide

/-- Claim C1 (amended): for every entry reported by a segment reader on a
writer-produced segment file (well-formed frames at consecutive offsets
followed by the zero pre-allocation padding), the on-disk frame
satisfies `len_field = 5 + |payload|` stored as a big-endian u32 (so the
framed size on disk is `4 + len`), and `crc_field = crc32(payload)`: the
checksum stored on write and verified on open covers the payload bytes
only, NOT the type byte. -/
theorem claim_C1 (f : Nat) (es : List (Nat × List Nat)) (g : Nat) (j : Nat)
    (hwf : framesWF es) (hg : g = 0 ∨ 4 ≤ g) (hj : j < es.length)
    (hrange : f + es.length < 2 ^ 63) :
    ∃ e, ReadLogByIndexM (NewSegmentReaderM f (concatFrames es ++ List.replicate g 0))
        (f + j) = .ok (some e) ∧
      e.Len = 5 + e.Data.length ∧ e.Crc32 = Checksum e.Data := by
  refine ⟨entryOf (es.getD j (0, [])), ReadLogByIndexM_frames f es g j hwf hg hj hrange, ?_, rfl⟩
  show (es.getD j (0, [])).2.length + crc32Size + typeSize = 5 + (es.getD j (0, [])).2.length
  simp only [crc32Size, typeSize]
  omega

/-- Claim C1 (witness): one record of type 1 with payload `[7]`, no
padding, segment first index 1, read back at index 1. -/
theorem claim_C1_witness :
    framesWF [(1, [7])] ∧
    (∃ e, ReadLogByIndexM
        (NewSegmentReaderM 1 (concatFrames [(1, [7])] ++ List.replicate 0 0)) (1 + 0) =
        .ok (some e) ∧ e.Len = 5 + e.Data.length ∧ e.Crc32 = Checksum e.Data) :=
  ⟨by decide, claim_C1 1 [(1, [7])] 0 0 (by decide) (by decide) (by decide) (by decide)⟩

/-- Claim C5: for a `SegmentReader` opened on a segment with first index
`f` whose position table holds `n` valid records (any file content; `n`
is whatever `loadEntries` recorded), `ReadLogByIndex(i)` returns the
`ErrSegmentIndex` error for every `i < f` and every `i ≥ f + n`, and for
`f ≤ i < f + n` it returns the entry framed at `pos[i − f]` with a nil
error.  The bound `f + n < 2^63` keeps the Go `int` conversion exact. -/
theorem claim_C5 (f : Nat) (file : List Nat) (i : Nat)
    (hn : f + (NewSegmentReaderM f file).pos.length < 2 ^ 63)
    (hi : i < 2 ^ 64) :
    ((i < f ∨ f + (NewSegmentReaderM f file).pos.length ≤ i) →
      ReadLogByIndexM (NewSegmentReaderM f file) i = .error .segmentIndex) ∧
    (f ≤ i → i < f + (NewSegmentReaderM f file).pos.length →
      ∃ e, readLog file ((NewSegmentReaderM f file).pos.getD (i - f) 0) = .ok e ∧
        ReadLogByIndexM (NewSegmentReaderM f file) i = .ok (some e)) := by
  have hidx : (NewSegmentReaderM f file).index = f := rfl
  have hfile : (NewSegmentReaderM f file).file = file := rfl
  constructor
  · intro h
    exact ReadLogByIndexM_oob (NewSegmentReaderM f file) i (by rw [hidx]; omega)
      (by rw [hidx]; omega) hi (by rw [hidx]; omega)
  · intro h1 h2
    have hok := ReadLogByIndexM_ok (NewSegmentReaderM f file) i (by rw [hidx]; omega)
      (by rw [hidx]; omega) (by rw [hidx]; omega) (by rw [hidx]; omega)
    rw [hidx] at hok
    have hlt : i - f < (NewSegmentReaderM f file).pos.length := by omega
    have hmem : (NewSegmentReaderM f file).pos.getD (i - f) 0 ∈
        (NewSegmentReaderM f file).pos := by
      rw [List.getD_eq_getElem _ _ hlt]
      exact List.getElem_mem _
    obtain ⟨e, he, _, _⟩ := scanFrom_positions_parse file 0 _ hmem
    refine ⟨e, he, ?_⟩
    rw [hok]
    unfold readOneEntryFromM
    rw [hfile, he]

/-- Claim C5 (witness): a single-frame file with first index 1: index 2 is
out of range (`ErrSegmentIndex`); index 1 returns the framed entry with a
nil error. -/
theorem claim_C5_witness :
    (1 + (NewSegmentReaderM 1 (concatFrames [(1, [7])])).pos.length < 2 ^ 63 ∧
      (2 : Nat) < 2 ^ 64 ∧
      ReadLogByIndexM (NewSegmentReaderM 1 (concatFrames [(1, [7])])) 2 =
        .error .segmentIndex) ∧
    (∃ e, readLog (concatFrames [(1, [7])])
        ((NewSegmentReaderM 1 (concatFrames [(1, [7])])).pos.getD (1 - 1) 0) = .ok e ∧
      ReadLogByIndexM (NewSegmentReaderM 1 (concatFrames [(1, [7])])) 1 = .ok (some e)) := by
  have hpos : (NewSegmentReaderM 1 (concatFrames [(1, [7])])).pos = [0] := by
    have hstop : stopsHere (concatFrames [(1, [7])])
        (([] : List Nat).length + (concatFrames [(1, [7])]).length) = true := by decide
    have hscan := scanFrom_frames [(1, [7])] (concatFrames [(1, [7])]) [] []
      (by simp) (by decide) hstop
    simp only [List.length_nil] at hscan
    show (scanFrom (concatFrames [(1, [7])]) 0).positions = [0]
    rw [hscan]
    decide
  have hn : 1 + (NewSegmentReaderM 1 (concatFrames [(1, [7])])).pos.length < 2 ^ 63 := by
    rw [hpos]
    norm_num
  have h2 := claim_C5 1 (concatFrames [(1, [7])]) 2 hn (by norm_num)
  have h1 := claim_C5 1 (concatFrames [(1, [7])]) 1 hn (by norm_num)
  refine ⟨⟨hn, by norm_num, h2.1 (Or.inr ?_)⟩, h1.2 le_rfl ?_⟩
  · rw [hpos]
    norm_num
  · rw [hpos]
    norm_num

/-- Reduction of `lwsWrite` on a successful encode. -/
theorem lwsWrite_ok {α : Type} (st : LwsState α) (typ : Nat) (o : ObjVal α)
    (t : Nat) (data : List Nat)
    (h : encodeObj st.coders typ o = (t, .ok data)) :
    lwsWrite st typ o = ((st.lastIndex + 1, none),
      { st with
        swFile := writeLogAt st.swFile st.swCursor t data,
        swCursor := st.swCursor + data.length + 9,
        swCount := st.swCount + 1,
        lastIndex := st.lastIndex + 1 }) := by
  simp only [lwsWrite, h]

/-- Reduction of `EntryElemnet.GetObj` on a successful non-raw read with a
registered decoder. -/
theorem elemGetObj_decode {α : Type} (coders : Nat → Option (Coder α)) (sr : SegmentReaderM)
    (idx : Nat) (e : LogEntry) (c : Coder α) (a : α)
    (h : ReadLogByIndexM sr idx = .ok (some e))
    (ht : ¬ e.Typ = RawCoderType) (hc : coders e.Typ = some c)
    (hd : c.Decode e.Data = .ok a) :
    elemGetObj coders sr idx = .ok (.obj a) := by
  simp only [elemGetObj, h]
  rw [if_neg ht]
  simp only [GetCoder, hc, hd]

/-- Reduction of `EntryElemnet.Get` on a successful read. -/
theorem elemGet_ok {α : Type} (coders : Nat → Option (Coder α)) (sr : SegmentReaderM)
    (idx : Nat) (e : LogEntry)
    (h : ReadLogByIndexM sr idx = .ok (some e)) :
    elemGet coders sr idx = .ok e.Data := by
  simp only [elemGet, h]

/-- Claim C2: write/read round-trip through the facade.  With a codec
registered at tag `t ≠ 0` whose `Decode` inverts `Encode` on `obj`,
`GetObj` of the iterator element at the index produced by
`Write(t, obj)` yields `obj` again; and for a byte slice `p`, `Get` of
the element written by `WriteBytes(p)` yields `p`.  The writer state
holds `es` earlier frames with `k` zero bytes of pre-allocated padding
and `f` is the segment first index; the padding left after the written
frame must be zero or at least four bytes (one to three would panic the
reader scan, see C3). -/
theorem claim_C2 {α : Type} (coders : Nat → Option (Coder α))
    (es : List (Nat × List Nat)) (k li f t : Nat) (c : Coder α) (a : α) (data p : List Nat)
    (hwf : framesWF es)
    (hc : coders t = some c)
    (ht : t ≠ RawCoderType)
    (henc : c.Encode a = .ok data)
    (hdec : c.Decode data = .ok a)
    (hdlen : data.length + 5 < 2 ^ 32)
    (hplen : p.length + 5 < 2 ^ 32)
    (hgap : k - (data.length + 9) = 0 ∨ 4 ≤ k - (data.length + 9))
    (hgapp : k - (p.length + 9) = 0 ∨ 4 ≤ k - (p.length + 9))
    (hrange : f + (es.length + 1) < 2 ^ 63) :
    ((lwsWrite (writerOn coders es k li) t (.obj a)).1 = (li + 1, none) ∧
     elemGetObj coders
       (NewSegmentReaderM f (lwsWrite (writerOn coders es k li) t (.obj a)).2.swFile)
       (f + es.length) = .ok (.obj a)) ∧
    ((lwsWriteBytes (writerOn coders es k li) p).1 = (li + 1, none) ∧
     elemGet coders
       (NewSegmentReaderM f (lwsWriteBytes (writerOn coders es k li) p).2.swFile)
       (f + es.length) = .ok p) := by
  have hgd : ∀ (q : Nat × List Nat),
      (es ++ [q]).getD es.length (0, []) = q := by
    intro q
    rw [List.getD_append_right es [q] (0, []) es.length le_rfl, Nat.sub_self]
    rfl
  have hwfx : ∀ (q : Nat × List Nat), q.2.length + 5 < 2 ^ 32 → framesWF (es ++ [q]) := by
    intro q hq r hr
    rcases List.mem_append.mp hr with hr | hr
    · exact hwf r hr
    · rw [List.mem_singleton.mp hr]
      exact hq
  constructor
  · -- Write(t, obj) / GetObj path
    have henc2 : encodeObj (writerOn coders es k li).coders t (ObjVal.obj a) =
        (t, .ok data) := by
      simp only [writerOn, encodeObj, GetCoder, hc, henc]
    have hwr := lwsWrite_ok (writerOn coders es k li) t (.obj a) t data henc2
    rw [hwr]
    have hfile2 : writeLogAt (concatFrames es ++ List.replicate k 0)
        (concatFrames es).length t data =
        concatFrames (es ++ [(t, data)]) ++ List.replicate (k - (data.length + 9)) 0 :=
      writeLogAt_concat es k t data
    have hread := ReadLogByIndexM_frames f (es ++ [(t, data)]) (k - (data.length + 9))
      es.length (hwfx (t, data) hdlen) hgap
      (by rw [List.length_append]; simp) (by rw [List.length_append]; simpa using hrange)
    rw [hgd (t, data)] at hread
    refine ⟨rfl, ?_⟩
    show elemGetObj coders (NewSegmentReaderM f (writeLogAt
      (concatFrames es ++ List.replicate k 0) (concatFrames es).length t data))
      (f + es.length) = .ok (.obj a)
    rw [hfile2]
    exact elemGetObj_decode coders _ _ (entryOf (t, data)) c a hread ht hc hdec
  · -- WriteBytes(p) / Get path
    have henc2 : encodeObj (writerOn coders es k li).coders 0 (ObjVal.bytes p) =
        (0, .ok p) := rfl
    have hwr := lwsWrite_ok (writerOn coders es k li) 0 (.bytes p) 0 p henc2
    have hwrb : lwsWriteBytes (writerOn coders es k li) p =
        lwsWrite (writerOn coders es k li) 0 (.bytes p) := rfl
    rw [hwrb, hwr]
    have hfile2 : writeLogAt (concatFrames es ++ List.replicate k 0)
        (concatFrames es).length 0 p =
        concatFrames (es ++ [(0, p)]) ++ List.replicate (k - (p.length + 9)) 0 :=
      writeLogAt_concat es k 0 p
    have hread := ReadLogByIndexM_frames f (es ++ [(0, p)]) (k - (p.length + 9))
      es.length (hwfx (0, p) hplen) hgapp
      (by rw [List.length_append]; simp) (by rw [List.length_append]; simpa using hrange)
    rw [hgd (0, p)] at hread
    refine ⟨rfl, ?_⟩
    show elemGet coders (NewSegmentReaderM f (writeLogAt
      (concatFrames es ++ List.replicate k 0) (concatFrames es).length 0 p))
      (f + es.length) = .ok p
    rw [hfile2, elemGet_ok coders _ _ (entryOf (0, p)) hread]
    rfl

/-- Claim C2 (witness): an empty log, a codec at tag 1 over `Nat` objects
encoding `n` as the single byte `n % 256`, the object 7, and the raw
byte slice `[9, 8]`: `GetObj` after `Write` returns 7 and `Get` after
`WriteBytes` returns `[9, 8]`. -/
theorem claim_C2_witness :
    ((fun u => if u = 1 then some (⟨1, fun n => .ok [n % 256],
        fun l => .ok (l.getD 0 0)⟩ : Coder Nat) else none) 1 =
      some ⟨1, fun n => .ok [n % 256], fun l => .ok (l.getD 0 0)⟩) ∧
    elemGetObj (fun u => if u = 1 then some (⟨1, fun n => .ok [n % 256],
        fun l => .ok (l.getD 0 0)⟩ : Coder Nat) else none)
      (NewSegmentReaderM 1 (lwsWrite (writerOn (fun u => if u = 1 then
        some (⟨1, fun n => .ok [n % 256], fun l => .ok (l.getD 0 0)⟩ : Coder Nat) else none)
        [] 0 0) 1 (.obj 7)).2.swFile) (1 + ([] : List (Nat × List Nat)).length) =
      .ok (.obj 7) := by
  have h := claim_C2 (fun u => if u = 1 then some (⟨1, fun n => .ok [n % 256],
      fun l => .ok (l.getD 0 0)⟩ : Coder Nat) else none) [] 0 0 1 1
    ⟨1, fun n => .ok [n % 256], fun l => .ok (l.getD 0 0)⟩ 7 [7 % 256] [9, 8]
    (by decide) (by simp) (by decide) rfl rfl (by decide) (by decide)
    (by decide) (by decide) (by norm_num)
  exact ⟨by simp, h.1.2⟩

end LWS
